import Mathlib

/-!
Verification of the hani editor core (Go sources: `keys.go`, `model.go` and the
later revisions of both files).  Lines of text are modelled as `List Char`
(Go strings are byte-indexed; the editor's column arithmetic is byte-level),
Go `int` values as `Int`, and Go slice-splice idioms
(`append(s[:k], append([]T{x}, s[k:]...)...)`) as `take`/`drop` concatenations,
which is exactly what those expressions compute.
-/

set_option maxHeartbeats 1000000

namespace Hani

/-- A buffer line (Go `string`, byte-indexed). -/
abbrev Line := List Char

/-- Go struct `Position { row, col int }`. -/
@[ext]
structure Position where
  row : Int
  col : Int
deriving DecidableEq, Repr

/-- Go struct `Viewport { offsetRow, offsetCol int }`. -/
@[ext]
structure Viewport where
  offsetRow : Int
  offsetCol : Int
deriving DecidableEq, Repr

/-- Go `Mode` enum: `ModeNormal`, `ModeInsert`. -/
inductive Mode where
  | normal
  | insert
deriving DecidableEq, Repr

/-- Go struct `CodeBlock { start, end int; lang string }` (`end` is a Lean
keyword, rendered `endLine`). -/
structure CodeBlock where
  start : Int
  endLine : Int
  lang : List Char
deriving DecidableEq, Repr

/-- The editor-relevant fields of Go struct `Model` (rendering/collaborator
fields such as `renderer`, `statusMsg`, `activeTab` are omitted: no claim
mentions them and no modelled operation reads them). -/
@[ext]
structure Model where
  content : List Line
  cursor : Position
  mode : Mode
  viewport : Viewport
  width : Int
  height : Int
  saved : Bool
  codeBlocksDirty : Bool
  codeBlocks : List CodeBlock
deriving DecidableEq, Repr

/-- Go helper `max(a, b int) int` from keys.go. -/
def goMax (a b : Int) : Int := if a > b then a else b

/-- Go indexing `content[i]`; out of range yields `[]` (only exercised inside
the bounds established by the §3 invariant / the guards of the source). -/
def lineAt (content : List Line) (i : Int) : Line := content.getD i.toNat []

/-- Go indexing `line[i]` for a byte; out of range yields `' '` (only
exercised inside the guards of the source). -/
def charAt (line : Line) (i : Int) : Char := line.getD i.toNat ' '

/-- Go `line[i]` modelled with the real failure mode: `none` when the index
is out of range (a Go string index panic). -/
def goIndex (line : Line) (i : Int) : Option Char :=
  if 0 ≤ i ∧ i < (line.length : Int) then some (charAt line i) else none

/-- Go assignment `content[i] = l`. -/
def setLine (content : List Line) (i : Int) (l : Line) : List Line :=
  content.set i.toNat l

/-- Go splice `append(content[:i], append([]string{l}, content[i:]...)...)`. -/
def insertAt (content : List Line) (i : Int) (l : Line) : List Line :=
  content.take i.toNat ++ l :: content.drop i.toNat

/-- Go splice `append(content[:i], content[i+1:]...)`. -/
def removeAt (content : List Line) (i : Int) : List Line :=
  content.take i.toNat ++ content.drop (i.toNat + 1)

/-- Go `isWhitespace(c byte) bool` from the later keys.go revision. -/
def isWhitespace (c : Char) : Bool :=
  c = ' ' || c = '\t' || c = '\n' || c = '\r'

/-- Forward scanning loop `for col < len(line) && p(line[col]) { col++ }`
shared by `nextWord`/`endOfWord`. -/
def skipWhile (p : Char → Bool) (line : Line) (col : Int) : Int :=
  if h : col < (line.length : Int) ∧ p (charAt line col) then
    skipWhile p line (col + 1)
  else col
termination_by ((line.length : Int) - col).toNat
decreasing_by omega

/-- Backward scanning loop `for col > 0 && col < len(line) && p(line[col])
{ col-- }` from the later revision of `prevWord`. -/
def skipBackWhile (p : Char → Bool) (line : Line) (col : Int) : Int :=
  if h : 0 < col ∧ col < (line.length : Int) ∧ p (charAt line col) then
    skipBackWhile p line (col - 1)
  else col
termination_by col.toNat
decreasing_by omega

/-- `nextWord` (later keys.go revision). -/
def nextWord (content : List Line) (cursor : Position) : Position :=
  let row := cursor.row
  let col := cursor.col
  if row ≥ (content.length : Int) then
    if content.length > 0 then
      ⟨(content.length : Int) - 1, ((lineAt content ((content.length : Int) - 1)).length : Int)⟩
    else ⟨0, 0⟩
  else
    let line := lineAt content row
    let col := skipWhile (fun c => !isWhitespace c) line col
    let col := skipWhile (fun c => isWhitespace c) line col
    if col ≥ (line.length : Int) ∧ row < (content.length : Int) - 1 then
      let row := row + 1
      let line := lineAt content row
      ⟨row, skipWhile (fun c => isWhitespace c) line 0⟩
    else ⟨row, col⟩

/-- `prevWord` (later keys.go revision, the one with the bounds guards). -/
def prevWord (content : List Line) (cursor : Position) : Position :=
  if cursor.row ≥ (content.length : Int) ∨ cursor.row < 0 then ⟨0, 0⟩
  else
    let rc : Int × Int :=
      if cursor.col > 0 then (cursor.row, cursor.col - 1)
      else if cursor.row > 0 then
        (cursor.row - 1,
         if cursor.row - 1 < (content.length : Int) then
           ((lineAt content (cursor.row - 1)).length : Int)
         else cursor.col)
      else (cursor.row, cursor.col)
    let row := rc.1
    if row < 0 then ⟨0, 0⟩
    else if row ≥ (content.length : Int) then ⟨(content.length : Int) - 1, 0⟩
    else
      let line := lineAt content row
      let col := skipBackWhile (fun c => isWhitespace c) line rc.2
      let col := skipBackWhile (fun c => !isWhitespace c) line col
      let col :=
        if 0 < col ∧ col < (line.length : Int) ∧ isWhitespace (charAt line col) then
          col + 1
        else col
      ⟨row, col⟩

/-- `endOfWord` (later keys.go revision). -/
def endOfWord (content : List Line) (cursor : Position) : Position :=
  let row := cursor.row
  let col := cursor.col
  if row ≥ (content.length : Int) then
    if content.length > 0 then
      ⟨(content.length : Int) - 1, ((lineAt content ((content.length : Int) - 1)).length : Int)⟩
    else ⟨0, 0⟩
  else
    let line := lineAt content row
    if col < (line.length : Int) ∧ ¬isWhitespace (charAt line col) then
      let col := skipWhile (fun c => !isWhitespace c) line col
      ⟨row, if col > 0 then col - 1 else col⟩
    else
      let col := skipWhile (fun c => isWhitespace c) line col
      let col := skipWhile (fun c => !isWhitespace c) line col
      ⟨row, if col > 0 then col - 1 else col⟩

/-- The scanning loop of the ORIGINAL keys.go `prevWord`
(`for col > 0 && (line[col] == ' ' || line[col] == '\t')`): the index
`line[col]` is evaluated whenever `col > 0`, and `none` records the Go
panic when it is out of range. -/
def keysSkipBack (p : Char → Bool) (line : Line) (col : Int) : Option Int :=
  if h : col > 0 then
    match goIndex line col with
    | none => none
    | some c => if p c then keysSkipBack p line (col - 1) else some col
  else some col
termination_by col.toNat
decreasing_by omega

/-- `prevWord` as in the ORIGINAL keys.go (no `col < len(line)` guards);
`none` records a string-index panic. -/
def keysPrevWord (content : List Line) (cursor : Position) : Option Position :=
  let rc : Int × Int :=
    if cursor.col > 0 then (cursor.row, cursor.col - 1)
    else if cursor.row > 0 then
      (cursor.row - 1, ((lineAt content (cursor.row - 1)).length : Int))
    else (cursor.row, cursor.col)
  let row := rc.1
  if row < 0 ∨ row ≥ (content.length : Int) then some ⟨0, 0⟩
  else
    let line := lineAt content row
    match keysSkipBack (fun c => c = ' ' || c = '\t') line rc.2 with
    | none => none
    | some col =>
      match keysSkipBack (fun c => !(c = ' ' || c = '\t')) line col with
      | none => none
      | some col =>
        if col > 0 then
          match goIndex line col with
          | none => none
          | some c =>
            if c = ' ' || c = '\t' then some ⟨row, col + 1⟩ else some ⟨row, col⟩
        else some ⟨row, col⟩

/-- `ensureCursorBounds` (later keys.go revision). -/
def ensureCursorBounds (m : Model) : Model :=
  let content := if m.content.length = 0 then [[]] else m.content
  let row :=
    if m.cursor.row < 0 then 0
    else if m.cursor.row ≥ (content.length : Int) then (content.length : Int) - 1
    else m.cursor.row
  let col :=
    if row < (content.length : Int) then
      let maxCol := ((lineAt content row).length : Int)
      if m.cursor.col < 0 then 0
      else if m.cursor.col > maxCol then maxCol
      else m.cursor.col
    else m.cursor.col
  { m with content := content, cursor := ⟨row, col⟩ }

/-- The vertical offset computation of `adjustViewport`: three-way scroll
followed by the two clamps (`< 0` and `> maxOffsetRow`). -/
def vOffsetRow (row offsetRow contentLen height : Int) : Int :=
  let contentHeight := if height - 3 < 1 then 1 else height - 3
  let o :=
    if row < offsetRow then row
    else if row ≥ offsetRow + contentHeight then row - contentHeight + 1
    else offsetRow
  let o := if o < 0 then 0 else o
  let maxOffsetRow := goMax 0 (contentLen - contentHeight)
  if o > maxOffsetRow then maxOffsetRow else o

/-- The horizontal offset computation of `adjustViewport` (no upper clamp in
the source). -/
def vOffsetCol (col offsetCol width : Int) : Int :=
  let contentWidth := if width - 3 < 1 then 1 else width - 3
  let o :=
    if col < offsetCol then col
    else if col ≥ offsetCol + contentWidth then col - contentWidth + 1
    else offsetCol
  if o < 0 then 0 else o

/-- `adjustViewport` (later keys.go revision): re-validates the cursor, then
recomputes both offsets. -/
def adjustViewport (m0 : Model) : Model :=
  let m := ensureCursorBounds m0
  { m with viewport :=
      ⟨vOffsetRow m.cursor.row m.viewport.offsetRow (m.content.length : Int) m.height,
       vOffsetCol m.cursor.col m.viewport.offsetCol m.width⟩ }

/-! Fenced code-block scanning (model.go). -/

/-- Go `strings.HasPrefix(line, "\x60\x60\x60")`. -/
def startsWithFence (l : Line) : Bool :=
  match l with
  | '`' :: '`' :: '`' :: _ => true
  | _ => false

/-- Go `strings.Contains(s, "\x60\x60\x60")`. -/
def containsFence : List Char → Bool
  | [] => false
  | c :: rest => startsWithFence (c :: rest) || containsFence rest

/-- Go `strings.TrimPrefix(line, "\x60\x60\x60")`. -/
def trimFence (l : Line) : Line :=
  if startsWithFence l then l.drop 3 else l

/-- ASCII fragment of `unicode.IsSpace` (the language tags the editor sees are
ASCII). -/
def isSpaceChar (c : Char) : Bool :=
  c = ' ' || c = '\t' || c = '\n' || c = '\r'

/-- Go `strings.TrimSpace`. -/
def trimSpace (l : List Char) : List Char :=
  ((l.dropWhile isSpaceChar).reverse.dropWhile isSpaceChar).reverse

/-- The linear scan of `rebuildCodeBlocks`: walks the lines, toggling the
in-block state on fence lines; returns the closed blocks and the still-open
block, if any. -/
def rebuildScan : List Line → Int → Option CodeBlock → List CodeBlock →
    List CodeBlock × Option CodeBlock
  | [], _, inBlock, acc => (acc, inBlock)
  | l :: rest, i, inBlock, acc =>
    if startsWithFence l then
      match inBlock with
      | none => rebuildScan rest (i + 1) (some ⟨i, 0, trimSpace (trimFence l)⟩) acc
      | some b => rebuildScan rest (i + 1) none (acc ++ [⟨b.start, i, b.lang⟩])
    else rebuildScan rest (i + 1) inBlock acc

/-- `rebuildCodeBlocks` (model.go) as a pure function of the buffer content:
the scan, plus the implicit close of an unclosed block at the last line. -/
def rebuildCodeBlocks (content : List Line) : List CodeBlock :=
  match rebuildScan content 0 none [] with
  | (blocks, none) => blocks
  | (blocks, some b) => blocks ++ [⟨b.start, (content.length : Int) - 1, b.lang⟩]

/-! Persistence (saveFile / the load path of NewModel). -/

/-- Go `strings.Split(data, "\n")`. -/
def splitNl : List Char → List Line
  | [] => [[]]
  | c :: rest =>
    if c = '\n' then [] :: splitNl rest
    else
      match splitNl rest with
      | [] => [[c]]
      | h :: t => (c :: h) :: t

/-- Go `lines[1 : len(lines)-1]`. -/
def middleLines (lines : List Line) : List Line :=
  (lines.drop 1).take (lines.length - 2)

/-- Both paste paths end with
`m.cursor.row += len(lines) - 1; m.cursor.col = len(lines[len(lines)-1])`. -/
def pasteCursor (row : Int) (lines : List Line) : Position :=
  ⟨row + (lines.length : Int) - 1, ((lines.getLastD []).length : Int)⟩

/-- The middle-line loop of the chunked paste path:
`for i := 1; i < len(lines)-1; i++ { insert lines[i] at row+i }`. -/
def chunkedInsertMiddles (c : List Line) (row : Int) (lines : List Line) (i : Nat) :
    List Line :=
  if h : i < lines.length - 1 then
    chunkedInsertMiddles (insertAt c (row + (i : Int)) (lines.getD i [])) row lines (i + 1)
  else c
termination_by lines.length - 1 - i

/-- The chunked paste path (lines 378-401 of the later keys.go revision):
first line overwritten in place, middle lines inserted one by one, last line
(plus the saved tail of the original line) inserted at the end. -/
def chunkedPasteContent (content : List Line) (row col : Int) (lines : List Line) :
    List Line :=
  let line := lineAt content row
  let c := setLine content row (line.take col.toNat ++ lines.headD [])
  let c := chunkedInsertMiddles c row lines 1
  if lines.length > 1 then
    insertAt c (row + (lines.length : Int) - 1) (lines.getLastD [] ++ line.drop col.toNat)
  else c

/-- The non-chunked multi-line paste path (lines 414-433): the new buffer is
built in one pass by concatenation. -/
def multiPasteContent (content : List Line) (row col : Int) (lines : List Line) :
    List Line :=
  let currentLine := lineAt content row
  let beforeCursor := currentLine.take col.toNat
  let afterCursor := currentLine.drop col.toNat
  content.take row.toNat
    ++ [beforeCursor ++ lines.headD []]
    ++ (if lines.length > 2 then middleLines lines else [])
    ++ [lines.getLastD [] ++ afterCursor]
    ++ content.drop (row.toNat + 1)

/-! The modal dispatcher (handleNormalMode / handleInsertMode, later keys.go
revision). A key event is the abstraction of `msg.String()`: single-byte keys
are `Key.char`, the multi-byte sequences the handlers name get their own
constructors, the paste chord carries the clipboard text, and `Key.other`
stands for any other multi-byte sequence (a no-op in both modes). -/

inductive Key where
  | char (c : Char)
  | left | right | up | down
  | esc | enter | backspace | delete
  | gg | dd
  | paste (clip : List Char)
  | other
deriving DecidableEq, Repr

/-- Normal mode `h`/`left`. -/
def normLeft (m : Model) : Model :=
  adjustViewport { m with cursor :=
    ⟨m.cursor.row, if m.cursor.col > 0 then m.cursor.col - 1 else m.cursor.col⟩ }

/-- Shared body of `j`/`down` (identical in both modes): move down, clamping
the column to the new line's length. -/
def moveDown (m : Model) : Model :=
  let cursor :=
    if m.cursor.row < (m.content.length : Int) - 1 then
      let row := m.cursor.row + 1
      let len := ((lineAt m.content row).length : Int)
      (⟨row, if m.cursor.col > len then len else m.cursor.col⟩ : Position)
    else m.cursor
  adjustViewport { m with cursor := cursor }

/-- Shared body of `k`/`up` (identical in both modes). -/
def moveUp (m : Model) : Model :=
  let cursor :=
    if m.cursor.row > 0 then
      let row := m.cursor.row - 1
      let len := ((lineAt m.content row).length : Int)
      (⟨row, if m.cursor.col > len then len else m.cursor.col⟩ : Position)
    else m.cursor
  adjustViewport { m with cursor := cursor }

/-- Normal mode `l`/`right`. -/
def normRight (m : Model) : Model :=
  let cursor :=
    if m.cursor.row < (m.content.length : Int) ∧
        m.cursor.col < ((lineAt m.content m.cursor.row).length : Int) then
      (⟨m.cursor.row, m.cursor.col + 1⟩ : Position)
    else m.cursor
  adjustViewport { m with cursor := cursor }

/-- Normal mode `x`: delete under cursor, joining with the next line at EOL. -/
def normX (m : Model) : Model :=
  if m.cursor.col < ((lineAt m.content m.cursor.row).length : Int) then
    let line := lineAt m.content m.cursor.row
    { m with
      content := setLine m.content m.cursor.row
        (line.take m.cursor.col.toNat ++ line.drop (m.cursor.col + 1).toNat),
      saved := false, codeBlocksDirty := true }
  else if m.cursor.row < (m.content.length : Int) - 1 then
    let currentLine := lineAt m.content m.cursor.row
    let nextLine := lineAt m.content (m.cursor.row + 1)
    let content := setLine m.content m.cursor.row (currentLine ++ nextLine)
    { m with content := removeAt content (m.cursor.row + 1),
             saved := false, codeBlocksDirty := true }
  else m

/-- Normal mode `dd`: delete the current line, or clear it when it is the
only one. -/
def normDD (m : Model) : Model :=
  if m.content.length > 1 then
    let content := removeAt m.content m.cursor.row
    let row :=
      if m.cursor.row ≥ (content.length : Int) then (content.length : Int) - 1
      else m.cursor.row
    let len := ((lineAt content row).length : Int)
    let col := if m.cursor.col > len then len else m.cursor.col
    adjustViewport { m with content := content, cursor := ⟨row, col⟩,
                            saved := false, codeBlocksDirty := true }
  else
    adjustViewport { m with content := setLine m.content 0 [],
                            cursor := ⟨m.cursor.row, 0⟩,
                            saved := false, codeBlocksDirty := true }

/-- `handleNormalMode`: re-validates bounds, then dispatches. Keys not in the
switch fall through to the bounds-ensured state. -/
def handleNormalMode (m0 : Model) (k : Key) : Model :=
  let m := ensureCursorBounds m0
  match k with
  | .char c =>
    if c = 'h' then normLeft m
    else if c = 'j' then moveDown m
    else if c = 'k' then moveUp m
    else if c = 'l' then normRight m
    else if c = '0' then
      adjustViewport { m with cursor := ⟨m.cursor.row, 0⟩ }
    else if c = '$' then
      adjustViewport { m with cursor :=
        ⟨m.cursor.row, ((lineAt m.content m.cursor.row).length : Int)⟩ }
    else if c = 'G' then
      adjustViewport { m with cursor :=
        ⟨(m.content.length : Int) - 1,
         ((lineAt m.content ((m.content.length : Int) - 1)).length : Int)⟩ }
    else if c = 'i' then { m with mode := .insert }
    else if c = 'a' then
      { m with mode := .insert,
               cursor :=
                 if m.cursor.col < ((lineAt m.content m.cursor.row).length : Int) then
                   ⟨m.cursor.row, m.cursor.col + 1⟩
                 else m.cursor }
    else if c = 'A' then
      { m with mode := .insert,
               cursor := ⟨m.cursor.row, ((lineAt m.content m.cursor.row).length : Int)⟩ }
    else if c = 'o' then
      adjustViewport { m with mode := .insert,
                              content := insertAt m.content (m.cursor.row + 1) [],
                              cursor := ⟨m.cursor.row + 1, 0⟩,
                              saved := false, codeBlocksDirty := true }
    else if c = 'O' then
      adjustViewport { m with mode := .insert,
                              content := insertAt m.content m.cursor.row [],
                              cursor := ⟨m.cursor.row, 0⟩,
                              saved := false, codeBlocksDirty := true }
    else if c = 'x' then normX m
    else if c = 'w' then adjustViewport { m with cursor := nextWord m.content m.cursor }
    else if c = 'b' then adjustViewport { m with cursor := prevWord m.content m.cursor }
    else if c = 'e' then adjustViewport { m with cursor := endOfWord m.content m.cursor }
    else m
  | .left => normLeft m
  | .down => moveDown m
  | .up => moveUp m
  | .right => normRight m
  | .gg => adjustViewport { m with cursor := ⟨0, 0⟩ }
  | .dd => normDD m
  | _ => m

/-- `handleInsertMode` (later keys.go revision). No bounds re-validation at
entry (only the paste branch calls `ensureCursorBounds`). -/
def handleInsertMode (m : Model) (k : Key) : Model :=
  match k with
  | .esc =>
    { m with mode := .normal,
             cursor := ⟨m.cursor.row,
                        if m.cursor.col > 0 then m.cursor.col - 1 else m.cursor.col⟩ }
  | .left =>
    adjustViewport { m with cursor := ⟨m.cursor.row, goMax 0 (m.cursor.col - 1)⟩ }
  | .right =>
    let cursor :=
      if m.cursor.col < ((lineAt m.content m.cursor.row).length : Int) then
        (⟨m.cursor.row, m.cursor.col + 1⟩ : Position)
      else m.cursor
    adjustViewport { m with cursor := cursor }
  | .up => moveUp m
  | .down => moveDown m
  | .enter =>
    let currentLine := lineAt m.content m.cursor.row
    let beforeCursor := currentLine.take m.cursor.col.toNat
    let afterCursor := currentLine.drop m.cursor.col.toNat
    let content := setLine m.content m.cursor.row beforeCursor
    let content := insertAt content (m.cursor.row + 1) afterCursor
    adjustViewport { m with content := content, cursor := ⟨m.cursor.row + 1, 0⟩,
                            saved := false, codeBlocksDirty := true }
  | .backspace =>
    if m.cursor.col > 0 then
      let line := lineAt m.content m.cursor.row
      adjustViewport { m with
        content := setLine m.content m.cursor.row
          (line.take (m.cursor.col - 1).toNat ++ line.drop m.cursor.col.toNat),
        cursor := ⟨m.cursor.row, m.cursor.col - 1⟩,
        saved := false, codeBlocksDirty := true }
    else if m.cursor.row > 0 then
      let prevLine := lineAt m.content (m.cursor.row - 1)
      let currentLine := lineAt m.content m.cursor.row
      let content := setLine m.content (m.cursor.row - 1) (prevLine ++ currentLine)
      adjustViewport { m with content := removeAt content m.cursor.row,
                              cursor := ⟨m.cursor.row - 1, (prevLine.length : Int)⟩,
                              saved := false, codeBlocksDirty := true }
    else adjustViewport m
  | .delete =>
    if m.cursor.col < ((lineAt m.content m.cursor.row).length : Int) then
      let line := lineAt m.content m.cursor.row
      { m with
        content := setLine m.content m.cursor.row
          (line.take m.cursor.col.toNat ++ line.drop (m.cursor.col + 1).toNat),
        saved := false, codeBlocksDirty := true }
    else if m.cursor.row < (m.content.length : Int) - 1 then
      let currentLine := lineAt m.content m.cursor.row
      let nextLine := lineAt m.content (m.cursor.row + 1)
      let content := setLine m.content m.cursor.row (currentLine ++ nextLine)
      { m with content := removeAt content (m.cursor.row + 1),
               saved := false, codeBlocksDirty := true }
    else m
  | .paste clip =>
    if clip = [] then m
    else if containsFence clip ∧ (splitNl clip).length > 10 then
      -- chunked path; the dirty flag update is commented out in the source
      let lines := splitNl clip
      { m with content := chunkedPasteContent m.content m.cursor.row m.cursor.col lines,
               cursor := pasteCursor m.cursor.row lines,
               saved := false }
    else
      let m := ensureCursorBounds m
      let lines := splitNl clip
      if lines.length = 1 then
        let line := lineAt m.content m.cursor.row
        { m with
          content := setLine m.content m.cursor.row
            (line.take m.cursor.col.toNat ++ clip ++ line.drop m.cursor.col.toNat),
          cursor := ⟨m.cursor.row, m.cursor.col + (clip.length : Int)⟩,
          saved := false }
      else
        -- the dirty flag update is commented out in the source
        { m with content := multiPasteContent m.content m.cursor.row m.cursor.col lines,
                 cursor := pasteCursor m.cursor.row lines,
                 saved := false }
  | .char c =>
    let line := lineAt m.content m.cursor.row
    { m with
      content := setLine m.content m.cursor.row
        (line.take m.cursor.col.toNat ++ c :: line.drop m.cursor.col.toNat),
      cursor := ⟨m.cursor.row, m.cursor.col + 1⟩,
      saved := false, codeBlocksDirty := true }
  | _ => m

/-- One key event, dispatched by mode (the editor-tab path of
`handleKeyPress`). -/
def step (m : Model) (k : Key) : Model :=
  match m.mode with
  | .normal => handleNormalMode m k
  | .insert => handleInsertMode m k

/-- The session state `NewModel` builds: cursor and viewport at the origin,
normal mode, code blocks freshly rebuilt (so the dirty flag is clear). -/
def initialState (content : List Line) (width height : Int) (saved : Bool) : Model :=
  { content := content, cursor := ⟨0, 0⟩, mode := .normal, viewport := ⟨0, 0⟩,
    width := width, height := height, saved := saved,
    codeBlocksDirty := false, codeBlocks := rebuildCodeBlocks content }

/-- The §3 data-model invariant: nonempty buffer, row strictly in range,
column at most the current line's length. -/
def Inv (m : Model) : Prop :=
  m.content ≠ [] ∧
  0 ≤ m.cursor.row ∧ m.cursor.row < (m.content.length : Int) ∧
  0 ≤ m.cursor.col ∧ m.cursor.col ≤ ((lineAt m.content m.cursor.row).length : Int)

instance (m : Model) : Decidable (Inv m) := by
  unfold Inv; infer_instance

/-- Number of fence lines in the buffer; the scan of `rebuildCodeBlocks` ends
inside an unclosed block exactly when this is odd. -/
def fenceCount (content : List Line) : Nat :=
  (content.filter startsWithFence).length

/-- Property-side helper (wording of the word-motion law): everything from
the given position to the end of the buffer is whitespace. -/
def remainingAllWhitespace (content : List Line) (pos : Position) : Bool :=
  ((lineAt content pos.row).drop pos.col.toNat).all isWhitespace &&
    (content.drop (pos.row.toNat + 1)).all (fun l => l.all isWhitespace)

/-- A one-line buffer `["xy"]` with the cursor at `(0,1)`, in insert mode:
the multi-line paste scenario of §8. -/
def pasteDemoState : Model :=
  { content := [['x', 'y']], cursor := ⟨0, 1⟩, mode := .insert, viewport := ⟨0, 0⟩,
    width := 80, height := 24, saved := false, codeBlocksDirty := true, codeBlocks := [] }

/-- An empty buffer in insert mode whose code-span cache is clean
(`codeBlocksDirty = false` and `codeBlocks` matches the content). -/
def cleanEmptyState : Model :=
  { content := [[]], cursor := ⟨0, 0⟩, mode := .insert, viewport := ⟨0, 0⟩,
    width := 80, height := 24, saved := true, codeBlocksDirty := false, codeBlocks := [] }

/-- A fenced go block as clipboard text:
`"\x60\x60\x60go\nx\n\x60\x60\x60"`. -/
def fencedClip : List Char :=
  ['`', '`', '`', 'g', 'o', '\n', 'x', '\n', '`', '`', '`']

/-! ### Basic facts about indexing and the splice helpers -/

theorem lineAt_eq_getElem {content : List Line} {i : Int}
    (h : i.toNat < content.length) : lineAt content i = content[i.toNat] :=
  List.getD_eq_getElem content [] h

theorem length_setLine (content : List Line) (i : Int) (l : Line) :
    (setLine content i l).length = content.length := by
  simp [setLine]

theorem length_insertAt (content : List Line) (i : Int) (l : Line) :
    (insertAt content i l).length = content.length + 1 := by
  simp [insertAt]; omega

theorem length_removeAt {content : List Line} {i : Int}
    (h : i.toNat < content.length) :
    (removeAt content i).length = content.length - 1 := by
  simp [removeAt]; omega

theorem lineAt_setLine_self {content : List Line} {i : Int} {l : Line}
    (h : i.toNat < content.length) : lineAt (setLine content i l) i = l := by
  rw [setLine, lineAt_eq_getElem (by simpa using h)]
  exact List.getElem_set_self (by simpa using h)

theorem lineAt_setLine_ne {content : List Line} {i j : Int} {l : Line}
    (hne : i.toNat ≠ j.toNat) : lineAt (setLine content i l) j = lineAt content j := by
  by_cases hj : j.toNat < content.length
  · rw [setLine, lineAt_eq_getElem (by simpa using hj), lineAt_eq_getElem hj]
    exact List.getElem_set_ne hne _
  · unfold lineAt setLine
    rw [List.getD_eq_getElem?_getD, List.getD_eq_getElem?_getD,
      List.getElem?_eq_none (by simpa using Nat.le_of_not_lt hj),
      List.getElem?_eq_none (Nat.le_of_not_lt hj)]

theorem lineAt_insertAt_self {content : List Line} {i : Int} {l : Line}
    (h : i.toNat ≤ content.length) : lineAt (insertAt content i l) i = l := by
  have hlen : (content.take i.toNat).length = i.toNat := by simp; omega
  rw [insertAt, lineAt_eq_getElem (by simp; omega)]
  rw [List.getElem_append_right (by omega)]
  simp [hlen]

theorem lineAt_removeAt_lt {content : List Line} {i j : Int}
    (h0 : 0 ≤ j) (hj : j < i) (hi : i.toNat ≤ content.length) :
    lineAt (removeAt content i) j = lineAt content j := by
  have hjn : j.toNat < i.toNat := by omega
  by_cases hcl : j.toNat < content.length
  · rw [removeAt, lineAt_eq_getElem (by simp; omega), lineAt_eq_getElem hcl]
    rw [List.getElem_append_left (by simp; omega)]
    exact List.getElem_take _
  · omega

/-! ### ensureCursorBounds and adjustViewport -/

theorem ecb_inv (m : Model) : Inv (ensureCursorBounds m) := by
  unfold Inv ensureCursorBounds
  by_cases hc : m.content.length = 0
  · simp only [hc, if_pos, if_true]
    refine ⟨by simp, ?_⟩
    split_ifs <;> simp_all [lineAt] <;> omega
  · simp only [if_neg hc]
    have h1 : m.content ≠ [] := by
      intro h; exact hc (by simp [h])
    refine ⟨h1, ?_⟩
    split_ifs <;> constructor <;> try omega
    all_goals constructor <;> try omega
    all_goals try constructor <;> omega

theorem ecb_fix {m : Model} (h : Inv m) : ensureCursorBounds m = m := by
  obtain ⟨h1, h2, h3, h4, h5⟩ := h
  have hc : ¬m.content.length = 0 := by
    intro h; exact h1 (List.length_eq_zero.mp h)
  unfold ensureCursorBounds
  simp only [if_neg hc]
  rw [if_neg (by omega), if_neg (by omega), if_pos (by omega),
    if_neg (by omega), if_neg (by omega)]

theorem ecb_mode (m : Model) : (ensureCursorBounds m).mode = m.mode := rfl

theorem ecb_saved (m : Model) : (ensureCursorBounds m).saved = m.saved := rfl

theorem ecb_dirty (m : Model) :
    (ensureCursorBounds m).codeBlocksDirty = m.codeBlocksDirty := rfl

theorem ecb_viewport (m : Model) : (ensureCursorBounds m).viewport = m.viewport := rfl

theorem ecb_content_ne {m : Model} (h : m.content ≠ []) :
    (ensureCursorBounds m).content = m.content := by
  unfold ensureCursorBounds
  simp only [if_neg (fun hc => h (List.length_eq_zero.mp hc))]

theorem av_inv (m : Model) : Inv (adjustViewport m) := ecb_inv m

theorem av_content (m : Model) :
    (adjustViewport m).content = (ensureCursorBounds m).content := rfl

theorem av_cursor (m : Model) :
    (adjustViewport m).cursor = (ensureCursorBounds m).cursor := rfl

theorem av_mode (m : Model) : (adjustViewport m).mode = m.mode := rfl

theorem av_saved (m : Model) : (adjustViewport m).saved = m.saved := rfl

theorem av_dirty (m : Model) :
    (adjustViewport m).codeBlocksDirty = m.codeBlocksDirty := rfl

theorem av_content_ne {m : Model} (h : m.content ≠ []) :
    (adjustViewport m).content = m.content := ecb_content_ne h

/-! ### C9: idempotence of adjustViewport -/

theorem vOffsetRow_spec (row or0 len h : Int) (h1 : 0 ≤ row) (h2 : row < len) :
    0 ≤ vOffsetRow row or0 len h ∧
    vOffsetRow row or0 len h ≤ goMax 0 (len - (if h - 3 < 1 then 1 else h - 3)) ∧
    vOffsetRow row or0 len h ≤ row ∧
    row < vOffsetRow row or0 len h + (if h - 3 < 1 then 1 else h - 3) := by
  simp only [vOffsetRow, goMax]
  split_ifs <;> omega

theorem vOffsetRow_fix {row r len h : Int} (hr0 : 0 ≤ r)
    (hmo : r ≤ goMax 0 (len - (if h - 3 < 1 then 1 else h - 3)))
    (hle : r ≤ row) (hlt : row < r + (if h - 3 < 1 then 1 else h - 3)) :
    vOffsetRow row r len h = r := by
  simp only [vOffsetRow, goMax] at *
  split_ifs at * <;> omega

theorem vOffsetRow_idem {row or0 len h : Int} (h1 : 0 ≤ row) (h2 : row < len) :
    vOffsetRow row (vOffsetRow row or0 len h) len h = vOffsetRow row or0 len h := by
  obtain ⟨a, b, c, d⟩ := vOffsetRow_spec row or0 len h h1 h2
  exact vOffsetRow_fix a b c d

theorem vOffsetCol_spec (col oc0 w : Int) (h1 : 0 ≤ col) :
    0 ≤ vOffsetCol col oc0 w ∧ vOffsetCol col oc0 w ≤ col ∧
    col < vOffsetCol col oc0 w + (if w - 3 < 1 then 1 else w - 3) := by
  simp only [vOffsetCol]
  split_ifs <;> omega

theorem vOffsetCol_fix {col r w : Int} (hr0 : 0 ≤ r) (hle : r ≤ col)
    (hlt : col < r + (if w - 3 < 1 then 1 else w - 3)) :
    vOffsetCol col r w = r := by
  simp only [vOffsetCol] at *
  split_ifs at * <;> omega

theorem vOffsetCol_idem {col oc0 w : Int} (h1 : 0 ≤ col) :
    vOffsetCol col (vOffsetCol col oc0 w) w = vOffsetCol col oc0 w := by
  obtain ⟨a, b, c⟩ := vOffsetCol_spec col oc0 w h1
  exact vOffsetCol_fix a b c

/-! ### C2: the original keys.go prevWord is not total -/

/-- C2: the claim says every buffer/cursor operation is total and in
particular that `PrevWord` never indexes a line out of range.  This fails for
the original keys.go `prevWord`: on the §3-valid state with buffer
`["ab","cd"]` and cursor `(1,0)` (reachable from a freshly loaded file by the
keys `j` then `b`), it moves to the previous line with `col = len("ab") = 2`
and then evaluates `line[2]` on a string of length 2 -- an out-of-range
string index, i.e. a Go panic, recorded here as `none`. -/
theorem keysPrevWord_panics_on_valid_state :
    keysPrevWord [['a', 'b'], ['c', 'd']] ⟨1, 0⟩ = none := by
  rw [keysPrevWord]
  norm_num
  rw [keysSkipBack]
  simp [goIndex, lineAt, charAt]

/-! ### C3: paste never sets the stale flag -/

/-- C3: the claim says every content-mutating operation sets
`codeBlocksDirty = true` and `saved = false`, so that whenever
`codeBlocksDirty` is false the code-span list matches the buffer.  The paste
handler violates this: starting from a clean state (empty buffer, clean
matching span cache), pasting a fenced code block mutates the content and
clears `saved`, but leaves `codeBlocksDirty = false` (the
`m.codeBlocksDirty = true` statements in both paste paths are commented out
in the source), and the cached span list no longer matches a rebuild from the
new content. -/
theorem paste_leaves_stale_flag_clear :
    (step cleanEmptyState (.paste fencedClip)).content ≠ cleanEmptyState.content ∧
    (step cleanEmptyState (.paste fencedClip)).saved = false ∧
    (step cleanEmptyState (.paste fencedClip)).codeBlocksDirty = false ∧
    rebuildCodeBlocks (step cleanEmptyState (.paste fencedClip)).content ≠
      (step cleanEmptyState (.paste fencedClip)).codeBlocks := by
  decide

/-! ### C5: save/load round trip -/

theorem rebuildScan_parity (lines : List Line) (i : Int) (ib : Option CodeBlock)
    (acc : List CodeBlock) :
    ((rebuildScan lines i ib acc).2.isSome = true) ↔
      (fenceCount lines + (if ib.isSome then 1 else 0)) % 2 = 1 := by
  induction lines generalizing i ib acc with
  | nil => cases ib <;> simp [rebuildScan, fenceCount]
  | cons l rest ih =>
    by_cases hf : startsWithFence l = true
    · cases ib with
      | none =>
        rw [rebuildScan, if_pos hf]
        simp only [Option.isSome_some, Option.isSome_none]
        rw [ih]
        simp [fenceCount, hf]
        try omega
      | some b =>
        rw [rebuildScan, if_pos hf]
        simp only [Option.isSome_some, Option.isSome_none]
        rw [ih]
        simp [fenceCount, hf]
        try omega
    · rw [rebuildScan.eq_def]
      simp only [if_neg hf]
      rw [ih]
      simp [fenceCount, hf]

theorem rebuildCodeBlocks_unclosed {content : List Line}
    (hodd : fenceCount content % 2 = 1) :
    ∃ b, (rebuildCodeBlocks content).getLast? = some b ∧
      b.endLine = (content.length : Int) - 1 := by
  have hs : (rebuildScan content 0 none []).2.isSome = true := by
    rw [rebuildScan_parity]
    simpa using hodd
  obtain ⟨b0, hb0⟩ := Option.isSome_iff_exists.mp hs
  rcases hpair : rebuildScan content 0 none [] with ⟨blocks, ib⟩
  rw [hpair] at hb0
  simp at hb0
  unfold rebuildCodeBlocks
  rw [hpair, hb0]
  exact ⟨⟨b0.start, (content.length : Int) - 1, b0.lang⟩, List.getLast?_concat _, rfl⟩

/-- C7: rebuilding code spans on the buffer
`["# H", "\x60\x60\x60go", "code", "\x60\x60\x60", "text"]` yields exactly one
span with start 1, end 3 and language tag `go`; and for every buffer whose
last opened fence is never closed (the scan ends inside a block, i.e. the
number of fence lines is odd), the rebuilt list ends with a span whose end is
the last line index of the buffer. -/
theorem rebuildCodeBlocks_spec :
    rebuildCodeBlocks [['#', ' ', 'H'], ['`', '`', '`', 'g', 'o'],
        ['c', 'o', 'd', 'e'], ['`', '`', '`'], ['t', 'e', 'x', 't']] =
      [⟨1, 3, ['g', 'o']⟩] ∧
    ∀ content : List Line, fenceCount content % 2 = 1 →
      ∃ b, (rebuildCodeBlocks content).getLast? = some b ∧
        b.endLine = (content.length : Int) - 1 :=
  ⟨by decide, fun _ h => rebuildCodeBlocks_unclosed h⟩

/-- Witness for C7's unclosed-fence half at the two-line buffer
`["\x60\x60\x60go", "x"]`. -/
theorem rebuildCodeBlocks_spec_witness :
    fenceCount [['`', '`', '`', 'g', 'o'], ['x']] % 2 = 1 ∧
    ∃ b, (rebuildCodeBlocks [['`', '`', '`', 'g', 'o'], ['x']]).getLast? = some b ∧
      b.endLine = (([['`', '`', '`', 'g', 'o'], ['x']] : List Line).length : Int) - 1 :=
  ⟨by decide, rebuildCodeBlocks_spec.2 _ (by decide)⟩

/-! ### C4: the chunked paste path refines the non-chunked one -/

theorem take_cons_drop (c : List Line) (k : Nat) (x : Line) :
    (c.take k ++ x :: c.drop k).take (k + 1) = c.take k ++ [x] := by
  rw [List.take_append_eq_append_take, List.take_take]
  have hmin : min (k + 1) k = k := by omega
  rw [hmin]
  congr 1
  have hlen : (c.take k).length = min k c.length := by simp
  rcases le_or_lt k c.length with h | h
  · have h2 : k + 1 - (c.take k).length = 1 := by omega
    rw [h2]
    simp
  · have hnil : c.drop k = [] := by
      apply List.drop_eq_nil_of_le
      omega
    rw [hnil]
    apply List.take_of_length_le
    simp
    omega

theorem drop_cons_drop (c : List Line) (k : Nat) (x : Line) :
    (c.take k ++ x :: c.drop k).drop (k + 1) = c.drop k := by
  rw [List.drop_append_eq_append_drop]
  have h1 : (c.take k).drop (k + 1) = [] := by
    apply List.drop_eq_nil_of_le
    simp
  rw [h1, List.nil_append]
  have hlen : (c.take k).length = min k c.length := by simp
  rcases le_or_lt k c.length with h | h
  · have h2 : k + 1 - (c.take k).length = 1 := by omega
    rw [h2]
    simp
  · have hnil : c.drop k = [] := by
      apply List.drop_eq_nil_of_le
      omega
    rw [hnil]
    apply List.drop_eq_nil_of_le
    simp
    omega

theorem take_set_succ {c : List Line} {k : Nat} (x : Line) (h : k < c.length) :
    (c.set k x).take (k + 1) = c.take k ++ [x] := by
  rw [List.set_eq_take_append_cons_drop, if_pos h]
  rw [List.take_append_eq_append_take, List.take_take]
  have hmin : min (k + 1) k = k := by omega
  rw [hmin]
  congr 1
  have hlen : (c.take k).length = min k c.length := by simp
  have h2 : k + 1 - (c.take k).length = 1 := by omega
  rw [h2]
  simp

theorem drop_set_succ (c : List Line) (k : Nat) (x : Line) :
    (c.set k x).drop (k + 1) = c.drop (k + 1) := by
  rw [List.set_eq_take_append_cons_drop]
  split_ifs with h
  · rw [List.drop_append_eq_append_drop]
    have h1 : (c.take k).drop (k + 1) = [] := by
      apply List.drop_eq_nil_of_le
      simp
    have hlen : (c.take k).length = min k c.length := by simp
    have h2 : k + 1 - (c.take k).length = 1 := by omega
    rw [h1, List.nil_append, h2]
    simp
  · rfl

theorem chunkedInsertMiddles_eq (lines : List Line) (row : Int) (h0 : 0 ≤ row) :
    ∀ (n : Nat) (c : List Line) (i : Nat), lines.length - 1 - i = n →
      chunkedInsertMiddles c row lines i =
        c.take (row.toNat + i) ++ (lines.drop i).take (lines.length - 1 - i) ++
          c.drop (row.toNat + i) := by
  intro n
  induction n with
  | zero =>
    intro c i hn
    rw [chunkedInsertMiddles, dif_neg (by omega)]
    rw [hn, List.take_zero]
    simp
  | succ n ih =>
    intro c i hn
    rw [chunkedInsertMiddles, dif_pos (by omega)]
    rw [ih _ (i + 1) (by omega)]
    have htn : (row + (i : Int)).toNat = row.toNat + i := by omega
    rw [insertAt, htn]
    rw [show row.toNat + (i + 1) = (row.toNat + i) + 1 by omega]
    rw [take_cons_drop, drop_cons_drop]
    have hi : i < lines.length := by omega
    have hseg : (lines.getD i []) :: (lines.drop (i + 1)).take (lines.length - 1 - (i + 1)) =
        (lines.drop i).take (lines.length - 1 - i) := by
      rw [List.drop_eq_getElem_cons hi,
        show lines.length - 1 - i = (lines.length - 1 - (i + 1)) + 1 by omega,
        List.take_succ_cons, List.getD_eq_getElem _ _ hi]
    rw [← hseg]
    simp

theorem middleLines_eq_nil {lines : List Line} (h : lines.length ≤ 2) :
    middleLines lines = [] := by
  unfold middleLines
  rw [Nat.sub_eq_zero_of_le h, List.take_zero]

theorem chunkedPaste_eq_multiPaste {content : List Line} {row col : Int}
    {lines : List Line} (h0 : 0 ≤ row) (hr : row < (content.length : Int))
    (hl : 2 ≤ lines.length) :
    chunkedPasteContent content row col lines =
      multiPasteContent content row col lines := by
  have hrn : row.toNat < content.length := by omega
  unfold chunkedPasteContent multiPasteContent
  rw [if_pos (by omega : lines.length > 1)]
  rw [chunkedInsertMiddles_eq lines row h0 _ _ 1 rfl]
  rw [setLine, take_set_succ _ hrn, drop_set_succ]
  rw [insertAt]
  have hk : (row + (lines.length : Int) - 1).toNat = row.toNat + 1 + (lines.length - 2) := by
    omega
  rw [hk]
  have hseg : lines.length - 1 - 1 = lines.length - 2 := by omega
  rw [hseg]
  set A := content.take row.toNat with hA
  set z := (lineAt content row).take col.toNat ++ lines.headD [] with hz
  set mids := (lines.drop 1).take (lines.length - 2) with hmids
  set D := content.drop (row.toNat + 1) with hD
  set y := lines.getLastD [] ++ (lineAt content row).drop col.toNat with hy
  have hAlen : (A ++ [z]).length = row.toNat + 1 := by
    simp [hA]
    omega
  have hmlen : mids.length = lines.length - 2 := by
    simp [hmids]
    omega
  have htake : ((A ++ [z]) ++ (mids ++ D)).take (row.toNat + 1 + (lines.length - 2)) =
      (A ++ [z]) ++ mids := by
    rw [List.take_append_eq_append_take]
    rw [List.take_of_length_le (by omega), hAlen]
    congr 1
    rw [show row.toNat + 1 + (lines.length - 2) - (row.toNat + 1) = lines.length - 2 by omega]
    exact List.take_left' hmlen
  have hdrop : ((A ++ [z]) ++ (mids ++ D)).drop (row.toNat + 1 + (lines.length - 2)) = D := by
    rw [List.drop_append_eq_append_drop]
    rw [List.drop_eq_nil_of_le (by omega), hAlen, List.nil_append]
    rw [show row.toNat + 1 + (lines.length - 2) - (row.toNat + 1) = lines.length - 2 by omega]
    exact List.drop_left' hmlen
  have hassoc : A ++ [z] ++ mids ++ D = (A ++ [z]) ++ (mids ++ D) := by
    simp [List.append_assoc]
  rw [hassoc, htake, hdrop]
  by_cases hL : lines.length > 2
  · rw [if_pos hL]
    show ((A ++ [z]) ++ mids) ++ y :: D = A ++ [z] ++ middleLines lines ++ [y] ++ D
    have hmm : middleLines lines = mids := rfl
    rw [hmm]
    simp
  · rw [if_neg hL]
    have hm0 : mids = [] := by
      rw [hmids, Nat.sub_eq_zero_of_le (by omega), List.take_zero]
    rw [hm0]
    simp
    refine ⟨?_, ?_⟩ <;>
      simp [hz, hy, List.headD_eq_head?, List.getLastD_eq_getLast?]

/-- C4: for every clipboard text whose line count exceeds the chunking
threshold (10) and every buffer/cursor with the row in range, the chunked
paste path produces exactly the same final buffer content and the same final
cursor position as the non-chunked multi-line paste path on the same
inputs (both paths end with the same two cursor assignments, modelled by the
shared `pasteCursor`). -/
theorem chunked_paste_matches_multiline (content lines : List Line) (row col : Int)
    (h0 : 0 ≤ row) (hr : row < (content.length : Int)) (hl : 10 < lines.length) :
    (chunkedPasteContent content row col lines, pasteCursor row lines) =
      (multiPasteContent content row col lines, pasteCursor row lines) := by
  rw [chunkedPaste_eq_multiPaste h0 hr (by omega)]

/-- Witness for C4 at an 11-line clipboard pasted into `["xy","z"]` at
`(0,1)`. -/
theorem chunked_paste_matches_multiline_witness :
    (chunkedPasteContent [['x', 'y'], ['z']] 0 1
        [['a'], ['b'], ['c'], ['d'], ['e'], ['f'], ['g'], ['h'], ['i'], ['j'], ['k']],
      pasteCursor 0 [['a'], ['b'], ['c'], ['d'], ['e'], ['f'], ['g'], ['h'], ['i'], ['j'], ['k']]) =
      (multiPasteContent [['x', 'y'], ['z']] 0 1
        [['a'], ['b'], ['c'], ['d'], ['e'], ['f'], ['g'], ['h'], ['i'], ['j'], ['k']],
      pasteCursor 0 [['a'], ['b'], ['c'], ['d'], ['e'], ['f'], ['g'], ['h'], ['i'], ['j'], ['k']]) :=
  chunked_paste_matches_multiline _ _ _ 1 (by decide) (by decide) (by decide)

/-- C9: `AdjustViewport` is idempotent: for every state (any cursor, buffer,
and terminal size), applying it twice produces the same state -- in
particular the same viewport offsets -- as applying it once. -/
theorem adjustViewport_idempotent (m : Model) :
    adjustViewport (adjustViewport m) = adjustViewport m := by
  obtain ⟨h1, h2, h3, h4, h5⟩ := ecb_inv m
  conv_lhs => rw [adjustViewport]
  rw [ecb_fix (av_inv m)]
  have hvr :
      vOffsetRow (adjustViewport m).cursor.row (adjustViewport m).viewport.offsetRow
        ((adjustViewport m).content.length : Int) (adjustViewport m).height =
      (adjustViewport m).viewport.offsetRow := by
    show vOffsetRow (ensureCursorBounds m).cursor.row
        (vOffsetRow (ensureCursorBounds m).cursor.row
          (ensureCursorBounds m).viewport.offsetRow
          ((ensureCursorBounds m).content.length : Int) (ensureCursorBounds m).height)
        ((ensureCursorBounds m).content.length : Int) (ensureCursorBounds m).height = _
    exact vOffsetRow_idem h2 h3
  have hvc :
      vOffsetCol (adjustViewport m).cursor.col (adjustViewport m).viewport.offsetCol
        (adjustViewport m).width = (adjustViewport m).viewport.offsetCol := by
    show vOffsetCol (ensureCursorBounds m).cursor.col
        (vOffsetCol (ensureCursorBounds m).cursor.col
          (ensureCursorBounds m).viewport.offsetCol (ensureCursorBounds m).width)
        (ensureCursorBounds m).width = _
    exact vOffsetCol_idem h4
  rw [hvr, hvc]

/-! ### C1: the bounds invariant is preserved by every operation -/

theorem content_ne_of_length {c : List Line} (h : 0 < c.length) : c ≠ [] :=
  List.length_pos.mp h

theorem normLeft_inv (m : Model) : Inv (normLeft m) := av_inv _
theorem moveDown_inv (m : Model) : Inv (moveDown m) := av_inv _
theorem moveUp_inv (m : Model) : Inv (moveUp m) := av_inv _
theorem normRight_inv (m : Model) : Inv (normRight m) := av_inv _
theorem normDD_inv (m : Model) : Inv (normDD m) := by
  unfold normDD
  split_ifs <;> exact av_inv _

theorem normX_inv {m : Model} (h : Inv m) : Inv (normX m) := by
  obtain ⟨h1, h2, h3, h4, h5⟩ := h
  have hrn : m.cursor.row.toNat < m.content.length := by omega
  unfold normX
  split_ifs with hc hj
  · refine ⟨?_, ?_, ?_, ?_, ?_⟩ <;> dsimp only
    · apply content_ne_of_length
      rw [length_setLine]
      omega
    · exact h2
    · rw [length_setLine]
      exact h3
    · exact h4
    · rw [lineAt_setLine_self hrn]
      simp only [List.length_append, List.length_take, List.length_drop]
      omega
  · have hr1lt : (m.cursor.row + 1).toNat < m.content.length := by omega
    refine ⟨?_, ?_, ?_, ?_, ?_⟩ <;> dsimp only
    · apply content_ne_of_length
      rw [length_removeAt (by rw [length_setLine]; exact hr1lt)]
      rw [length_setLine]
      omega
    · exact h2
    · rw [length_removeAt (by rw [length_setLine]; exact hr1lt), length_setLine]
      omega
    · exact h4
    · rw [lineAt_removeAt_lt h2 (by omega) (by rw [length_setLine]; omega)]
      rw [lineAt_setLine_self hrn]
      simp only [List.length_append]
      omega
  · exact ⟨h1, h2, h3, h4, h5⟩



theorem handleNormalMode_inv (m0 : Model) (k : Key) : Inv (handleNormalMode m0 k) := by
  unfold handleNormalMode
  have hinv := ecb_inv m0
  generalize ensureCursorBounds m0 = n at hinv ⊢
  obtain ⟨h1, h2, h3, h4, h5⟩ := hinv
  cases k with
  | char c =>
    dsimp only
    by_cases hc1 : c = 'h'
    · rw [if_pos hc1]
      exact normLeft_inv _
    rw [if_neg hc1]
    by_cases hc2 : c = 'j'
    · rw [if_pos hc2]
      exact moveDown_inv _
    rw [if_neg hc2]
    by_cases hc3 : c = 'k'
    · rw [if_pos hc3]
      exact moveUp_inv _
    rw [if_neg hc3]
    by_cases hc4 : c = 'l'
    · rw [if_pos hc4]
      exact normRight_inv _
    rw [if_neg hc4]
    by_cases hc5 : c = '0'
    · rw [if_pos hc5]
      exact av_inv _
    rw [if_neg hc5]
    by_cases hc6 : c = '$'
    · rw [if_pos hc6]
      exact av_inv _
    rw [if_neg hc6]
    by_cases hc7 : c = 'G'
    · rw [if_pos hc7]
      exact av_inv _
    rw [if_neg hc7]
    by_cases hc8 : c = 'i'
    · rw [if_pos hc8]
      exact ⟨h1, h2, h3, h4, h5⟩
    rw [if_neg hc8]
    by_cases hc9 : c = 'a'
    · rw [if_pos hc9]
      refine ⟨h1, ?_, ?_, ?_, ?_⟩ <;> dsimp only <;> split_ifs <;> (try dsimp only) <;> omega
    rw [if_neg hc9]
    by_cases hc10 : c = 'A'
    · rw [if_pos hc10]
      exact ⟨h1, h2, h3, by dsimp only; omega, by dsimp only; omega⟩
    rw [if_neg hc10]
    by_cases hc11 : c = 'o'
    · rw [if_pos hc11]
      exact av_inv _
    rw [if_neg hc11]
    by_cases hc12 : c = 'O'
    · rw [if_pos hc12]
      exact av_inv _
    rw [if_neg hc12]
    by_cases hc13 : c = 'x'
    · rw [if_pos hc13]
      exact normX_inv ⟨h1, h2, h3, h4, h5⟩
    rw [if_neg hc13]
    by_cases hc14 : c = 'w'
    · rw [if_pos hc14]
      exact av_inv _
    rw [if_neg hc14]
    by_cases hc15 : c = 'b'
    · rw [if_pos hc15]
      exact av_inv _
    rw [if_neg hc15]
    by_cases hc16 : c = 'e'
    · rw [if_pos hc16]
      exact av_inv _
    rw [if_neg hc16]
    exact ⟨h1, h2, h3, h4, h5⟩
  | left => exact normLeft_inv _
  | down => exact moveDown_inv _
  | up => exact moveUp_inv _
  | right => exact normRight_inv _
  | gg => exact av_inv _
  | dd => exact normDD_inv _
  | esc => exact ⟨h1, h2, h3, h4, h5⟩
  | enter => exact ⟨h1, h2, h3, h4, h5⟩
  | backspace => exact ⟨h1, h2, h3, h4, h5⟩
  | delete => exact ⟨h1, h2, h3, h4, h5⟩
  | paste clip => exact ⟨h1, h2, h3, h4, h5⟩
  | other => exact ⟨h1, h2, h3, h4, h5⟩



theorem multiPaste_length {content : List Line} {row : Int} (col : Int)
    {lines : List Line}
    (h0 : 0 ≤ row) (hr : row.toNat < content.length) (hl : 2 ≤ lines.length) :
    (multiPasteContent content row col lines).length =
      content.length + lines.length - 1 := by
  unfold multiPasteContent
  by_cases hL : lines.length > 2
  · rw [if_pos hL]
    simp [middleLines]
    omega
  · rw [if_neg hL]
    simp
    omega

theorem lineAt_append_cons {P D : List Line} {y : Line} {i : Int}
    (h : P.length = i.toNat) : lineAt (P ++ y :: D) i = y := by
  rw [lineAt_eq_getElem (by simp; omega)]
  rw [List.getElem_append_right (by omega)]
  simp [h]

theorem multiPaste_lineAt_last {content : List Line} {row : Int} (col : Int)
    {lines : List Line}
    (h0 : 0 ≤ row) (hr : row.toNat < content.length) (hl : 2 ≤ lines.length) :
    lineAt (multiPasteContent content row col lines)
        (row + (lines.length : Int) - 1) =
      lines.getLastD [] ++ (lineAt content row).drop col.toNat := by
  have hre : multiPasteContent content row col lines =
      (content.take row.toNat ++ [(lineAt content row).take col.toNat ++ lines.headD []] ++
        (if lines.length > 2 then middleLines lines else [])) ++
      (lines.getLastD [] ++ (lineAt content row).drop col.toNat) ::
        content.drop (row.toNat + 1) := by
    unfold multiPasteContent
    simp
  rw [hre]
  apply lineAt_append_cons
  by_cases hL : lines.length > 2
  · rw [if_pos hL]
    simp [middleLines]
    omega
  · rw [if_neg hL]
    simp
    omega



theorem splitNl_ne_nil (s : List Char) : splitNl s ≠ [] := by
  cases s with
  | nil => simp [splitNl]
  | cons c rest =>
    rw [splitNl]
    split_ifs
    · simp
    · cases splitNl rest <;> simp

theorem multiPaste_state_inv {m : Model} {lines : List Line} (h : Inv m)
    (hl : 2 ≤ lines.length) :
    Inv { m with content := multiPasteContent m.content m.cursor.row m.cursor.col lines,
                 cursor := pasteCursor m.cursor.row lines,
                 saved := false } := by
  obtain ⟨h1, h2, h3, h4, h5⟩ := h
  have hrn : m.cursor.row.toNat < m.content.length := by omega
  have hlen := multiPaste_length m.cursor.col h2 hrn hl
  have hlast := multiPaste_lineAt_last m.cursor.col h2 hrn hl
  refine ⟨?_, ?_, ?_, ?_, ?_⟩ <;> dsimp only [pasteCursor]
  · apply content_ne_of_length
    rw [hlen]
    omega
  · omega
  · rw [hlen]
    omega
  · omega
  · rw [hlast]
    simp only [List.length_append]
    omega

theorem handleInsertMode_inv (m : Model) (k : Key) (h : Inv m) :
    Inv (handleInsertMode m k) := by
  obtain ⟨h1, h2, h3, h4, h5⟩ := h
  have hrn : m.cursor.row.toNat < m.content.length := by omega
  cases k with
  | esc =>
    refine ⟨h1, ?_, ?_, ?_, ?_⟩ <;> dsimp only [handleInsertMode] <;>
      (try split_ifs) <;> (try dsimp only) <;> omega
  | left => exact av_inv _
  | right =>
    dsimp only [handleInsertMode]
    exact av_inv _
  | up => exact moveUp_inv _
  | down => exact moveDown_inv _
  | enter => exact av_inv _
  | backspace =>
    dsimp only [handleInsertMode]
    split_ifs <;> exact av_inv _
  | delete => exact normX_inv ⟨h1, h2, h3, h4, h5⟩
  | char c =>
    refine ⟨?_, ?_, ?_, ?_, ?_⟩ <;> dsimp only [handleInsertMode]
    · apply content_ne_of_length
      rw [length_setLine]
      omega
    · exact h2
    · rw [length_setLine]
      exact h3
    · omega
    · rw [lineAt_setLine_self hrn]
      simp only [List.length_append, List.length_take, List.length_drop,
        List.length_cons]
      omega
  | paste clip =>
    dsimp only [handleInsertMode]
    rw [ecb_fix ⟨h1, h2, h3, h4, h5⟩]
    split_ifs with hemp hch hone
    · exact ⟨h1, h2, h3, h4, h5⟩
    · have hl2 : 2 ≤ (splitNl clip).length := by omega
      rw [chunkedPaste_eq_multiPaste h2 h3 hl2]
      exact multiPaste_state_inv ⟨h1, h2, h3, h4, h5⟩ hl2
    · refine ⟨?_, ?_, ?_, ?_, ?_⟩ <;> dsimp only
      · apply content_ne_of_length
        rw [length_setLine]
        omega
      · exact h2
      · rw [length_setLine]
        exact h3
      · omega
      · rw [lineAt_setLine_self hrn]
        simp only [List.length_append, List.length_take, List.length_drop]
        omega
    · have hpos := List.length_pos.mpr (splitNl_ne_nil clip)
      exact multiPaste_state_inv ⟨h1, h2, h3, h4, h5⟩ (by omega)
  | gg => exact ⟨h1, h2, h3, h4, h5⟩
  | dd => exact ⟨h1, h2, h3, h4, h5⟩
  | other => exact ⟨h1, h2, h3, h4, h5⟩



theorem step_inv (m : Model) (k : Key) (h : Inv m) : Inv (step m k) := by
  unfold step
  split
  · exact handleNormalMode_inv m k
  · exact handleInsertMode_inv m k h

theorem step_inv_of_normal (m : Model) (k : Key) (hm : m.mode = .normal) :
    Inv (step m k) := by
  unfold step
  split
  · exact handleNormalMode_inv m k
  · simp_all

theorem foldl_step_inv (ks : List Key) (m : Model) (h : Inv m) :
    Inv (ks.foldl step m) := by
  induction ks generalizing m with
  | nil => exact h
  | cons k ks ih => exact ih _ (step_inv _ _ h)

/-- C1: for every sequence of editor operations (cursor motions, insertions,
deletions, line split/join, paste) applied from the initial state, after each
operation the buffer has at least one line, `0 ≤ cursor.row < len(Buffer)`
and `0 ≤ cursor.col ≤ len(Buffer[cursor.row])`.  Stated for every nonempty
key sequence from every initial state (so every prefix of a longer sequence
is covered by instantiating `ks`); the per-step lemmas
`handleNormalMode_inv` / `handleInsertMode_inv` show each single operation
re-establishes the invariant. -/
theorem editor_invariant (content : List Line) (width height : Int) (saved : Bool)
    (ks : List Key) (hne : ks ≠ []) :
    Inv (ks.foldl step (initialState content width height saved)) := by
  cases ks with
  | nil => exact absurd rfl hne
  | cons k ks => exact foldl_step_inv ks _ (step_inv_of_normal _ k rfl)

/-- Witness for C1: one concrete step (`i`) from a freshly loaded one-line
file. -/
theorem editor_invariant_witness :
    ([Key.char 'i'] : List Key) ≠ [] ∧
    Inv (([Key.char 'i'] : List Key).foldl step (initialState [['h', 'i']] 80 24 true)) :=
  ⟨by decide, editor_invariant [['h', 'i']] 80 24 true [Key.char 'i'] (by decide)⟩

/-! ### C10 and C6 -/

theorem norm_motion_frame {m : Model} (c : Position) (hc : m.content ≠ []) :
    (adjustViewport { ensureCursorBounds m with cursor := c }).content = m.content ∧
    (adjustViewport { ensureCursorBounds m with cursor := c }).saved = m.saved ∧
    (adjustViewport { ensureCursorBounds m with cursor := c }).codeBlocksDirty =
      m.codeBlocksDirty ∧
    (adjustViewport { ensureCursorBounds m with cursor := c }).codeBlocks =
      m.codeBlocks ∧
    (adjustViewport { ensureCursorBounds m with cursor := c }).width = m.width ∧
    (adjustViewport { ensureCursorBounds m with cursor := c }).height = m.height ∧
    (adjustViewport { ensureCursorBounds m with cursor := c }).mode = m.mode := by
  have h2 : (ensureCursorBounds m).content ≠ [] := by
    rw [ecb_content_ne hc]
    exact hc
  exact ⟨(av_content_ne (m := { ensureCursorBounds m with cursor := c }) h2).trans
      (ecb_content_ne hc), rfl, rfl, rfl, rfl, rfl, rfl⟩

/-- C10: with a nonempty buffer (part of the section-3 data model), every
Normal-mode pure motion key (`h j k l 0 $ gg G w b e`) and `Esc` in Insert
mode leave the buffer content, the saved flag, the `codeBlocksDirty` flag,
the CodeSpan list and the terminal size unchanged, and only the cursor, the
viewport and (for `Esc`) the mode may change: for the motion keys the mode
is unchanged as well. -/
theorem motion_keys_frame (m : Model) (k : Key) (hc : m.content ≠ [])
    (hk : (m.mode = .normal ∧
            k ∈ ([Key.char 'h', Key.char 'j', Key.char 'k', Key.char 'l',
                  Key.char '0', Key.char '$', Key.gg, Key.char 'G',
                  Key.char 'w', Key.char 'b', Key.char 'e'] : List Key)) ∨
          (m.mode = .insert ∧ k = Key.esc)) :
    (step m k).content = m.content ∧ (step m k).saved = m.saved ∧
      (step m k).codeBlocksDirty = m.codeBlocksDirty ∧
      (step m k).codeBlocks = m.codeBlocks ∧
      (step m k).width = m.width ∧ (step m k).height = m.height ∧
      (k = Key.esc ∨ (step m k).mode = m.mode) := by
  rcases hk with ⟨hm, hk⟩ | ⟨hm, rfl⟩
  · have hstep : step m k = handleNormalMode m k := by
      simp only [step, hm]
    rw [hstep]
    simp only [List.mem_cons, List.not_mem_nil, or_false] at hk
    rcases hk with rfl | rfl | rfl | rfl | rfl | rfl | rfl | rfl | rfl | rfl | rfl <;>
      (refine ⟨?_, ?_, ?_, ?_, ?_, ?_, Or.inr ?_⟩ <;>
        first
          | exact (norm_motion_frame _ hc).1
          | exact (norm_motion_frame _ hc).2.1
          | exact (norm_motion_frame _ hc).2.2.1
          | exact (norm_motion_frame _ hc).2.2.2.1
          | exact (norm_motion_frame _ hc).2.2.2.2.1
          | exact (norm_motion_frame _ hc).2.2.2.2.2.1
          | exact (norm_motion_frame _ hc).2.2.2.2.2.2)
  · have hstep : step m Key.esc = handleInsertMode m Key.esc := by
      simp only [step, hm]
    rw [hstep]
    exact ⟨rfl, rfl, rfl, rfl, rfl, rfl, Or.inl rfl⟩



theorem multiPaste_formula {content : List Line} {row col : Int} {lines : List Line}
    (hl : 2 ≤ lines.length) :
    multiPasteContent content row col lines =
      content.take row.toNat ++
        [(lineAt content row).take col.toNat ++ lines.headD []] ++
        middleLines lines ++
        [lines.getLastD [] ++ (lineAt content row).drop col.toNat] ++
        content.drop (row.toNat + 1) := by
  unfold multiPasteContent
  by_cases hL : lines.length > 2
  · rw [if_pos hL]
  · rw [if_neg hL, middleLines_eq_nil (by omega)]

/-- C6: pasting `"a\nb\nc"` at `(0,1)` into the one-line buffer `["xy"]`
yields `["xa","b","cy"]` with the cursor at `(2,1)`; and in general, for
every valid insert-mode state, a multi-line paste splits the current line at
`col`, merges the first pasted line onto the prefix and the suffix onto the
last pasted line, and leaves the cursor at
`(row + lineCount - 1, len(lastPastedLine))` -- on both paste paths. -/
theorem multiline_paste_spec :
    ((step pasteDemoState (.paste ['a', '\n', 'b', '\n', 'c'])).content =
        [['x', 'a'], ['b'], ['c', 'y']] ∧
      (step pasteDemoState (.paste ['a', '\n', 'b', '\n', 'c'])).cursor = ⟨2, 1⟩) ∧
    ∀ (m : Model) (clip : List Char), Inv m → m.mode = .insert → clip ≠ [] →
      2 ≤ (splitNl clip).length →
      (step m (.paste clip)).content =
        m.content.take m.cursor.row.toNat ++
          [(lineAt m.content m.cursor.row).take m.cursor.col.toNat ++
            (splitNl clip).headD []] ++
          middleLines (splitNl clip) ++
          [(splitNl clip).getLastD [] ++
            (lineAt m.content m.cursor.row).drop m.cursor.col.toNat] ++
          m.content.drop (m.cursor.row.toNat + 1) ∧
      (step m (.paste clip)).cursor =
        ⟨m.cursor.row + ((splitNl clip).length : Int) - 1,
         (((splitNl clip).getLastD []).length : Int)⟩ := by
  constructor
  · constructor <;> decide
  · intro m clip h hmode hne hl
    obtain ⟨h1, h2, h3, h4, h5⟩ := h
    have hre : step m (.paste clip) =
        { m with content := multiPasteContent m.content m.cursor.row m.cursor.col
                              (splitNl clip),
                 cursor := pasteCursor m.cursor.row (splitNl clip),
                 saved := false } := by
      simp only [step, hmode]
      dsimp only [handleInsertMode]
      rw [ecb_fix ⟨h1, h2, h3, h4, h5⟩]
      rw [if_neg hne]
      by_cases hch : (containsFence clip = true ∧ (splitNl clip).length > 10)
      · rw [if_pos hch, chunkedPaste_eq_multiPaste h2 h3 hl, hmode]
      · rw [if_neg hch, if_neg (by omega : ¬(splitNl clip).length = 1), hmode]
    rw [hre]
    refine ⟨?_, rfl⟩
    dsimp only
    exact multiPaste_formula hl

/-- Witness for C10 at a freshly loaded one-line file and the key `h`. -/
theorem motion_keys_frame_witness :
    (step (initialState [['a']] 80 24 true) (Key.char 'h')).content =
        (initialState [['a']] 80 24 true).content ∧
    (step (initialState [['a']] 80 24 true) (Key.char 'h')).saved =
        (initialState [['a']] 80 24 true).saved ∧
    (step (initialState [['a']] 80 24 true) (Key.char 'h')).codeBlocksDirty =
        (initialState [['a']] 80 24 true).codeBlocksDirty ∧
    (step (initialState [['a']] 80 24 true) (Key.char 'h')).codeBlocks =
        (initialState [['a']] 80 24 true).codeBlocks ∧
    (step (initialState [['a']] 80 24 true) (Key.char 'h')).width =
        (initialState [['a']] 80 24 true).width ∧
    (step (initialState [['a']] 80 24 true) (Key.char 'h')).height =
        (initialState [['a']] 80 24 true).height ∧
    (Key.char 'h' = Key.esc ∨
      (step (initialState [['a']] 80 24 true) (Key.char 'h')).mode =
        (initialState [['a']] 80 24 true).mode) :=
  motion_keys_frame _ _ (by decide) (Or.inl ⟨rfl, by decide⟩)

/-- Witness for C6's general half at the section-8 scenario state. -/
theorem multiline_paste_spec_witness :
    (step pasteDemoState (.paste ['a', '\n', 'b', '\n', 'c'])).content =
      pasteDemoState.content.take pasteDemoState.cursor.row.toNat ++
        [(lineAt pasteDemoState.content pasteDemoState.cursor.row).take
            pasteDemoState.cursor.col.toNat ++
          (splitNl ['a', '\n', 'b', '\n', 'c']).headD []] ++
        middleLines (splitNl ['a', '\n', 'b', '\n', 'c']) ++
        [(splitNl ['a', '\n', 'b', '\n', 'c']).getLastD [] ++
          (lineAt pasteDemoState.content pasteDemoState.cursor.row).drop
            pasteDemoState.cursor.col.toNat] ++
        pasteDemoState.content.drop (pasteDemoState.cursor.row.toNat + 1) ∧
    (step pasteDemoState (.paste ['a', '\n', 'b', '\n', 'c'])).cursor =
      ⟨pasteDemoState.cursor.row + ((splitNl ['a', '\n', 'b', '\n', 'c']).length : Int) - 1,
       (((splitNl ['a', '\n', 'b', '\n', 'c']).getLastD []).length : Int)⟩ :=
  multiline_paste_spec.2 pasteDemoState ['a', '\n', 'b', '\n', 'c']
    (by decide) rfl (by decide) (by decide)


/-! ### C8: endOfWord -/

theorem skipWhile_ge (p : Char → Bool) (line : Line) (col : Int) :
    col ≤ skipWhile p line col := by
  rw [skipWhile]
  split_ifs with h
  · have ih := skipWhile_ge p line (col + 1)
    omega
  · omega
termination_by ((line.length : Int) - col).toNat
decreasing_by omega

theorem skipWhile_le_len (p : Char → Bool) (line : Line) (col : Int)
    (h : col ≤ (line.length : Int)) : skipWhile p line col ≤ (line.length : Int) := by
  rw [skipWhile]
  split_ifs with hg
  · exact skipWhile_le_len p line (col + 1) (by omega)
  · exact h
termination_by ((line.length : Int) - col).toNat
decreasing_by omega

theorem skipWhile_le {p : Char → Bool} {line : Line} {col j : Int}
    (hj : col ≤ j) (hlt : j < (line.length : Int))
    (hp : p (charAt line j) = false) : skipWhile p line col ≤ j := by
  rw [skipWhile]
  split_ifs with hg
  · have hne : col ≠ j := by
      intro e
      rw [e, hp] at hg
      exact absurd hg.2 (by simp)
    exact skipWhile_le (by omega) hlt hp
  · exact hj
termination_by ((line.length : Int) - col).toNat
decreasing_by omega

theorem skipWhile_stop (p : Char → Bool) (line : Line) (col : Int)
    (h : skipWhile p line col < (line.length : Int)) :
    p (charAt line (skipWhile p line col)) = false := by
  rw [skipWhile] at h ⊢
  split_ifs at h ⊢ with hg
  · exact skipWhile_stop p line (col + 1) h
  · cases hp : p (charAt line col)
    · rfl
    · exact absurd ⟨h, hp⟩ hg
termination_by ((line.length : Int) - col).toNat
decreasing_by omega

theorem skipWhile_all (p : Char → Bool) (line : Line) (col : Int) (j : Int)
    (h1 : col ≤ j) (h2 : j < skipWhile p line col) :
    p (charAt line j) = true := by
  rw [skipWhile] at h2
  split_ifs at h2 with hg
  · rcases eq_or_lt_of_le h1 with rfl | hlt
    · exact hg.2
    · exact skipWhile_all p line (col + 1) j (by omega) h2
  · omega
termination_by ((line.length : Int) - col).toNat
decreasing_by omega

theorem skipWhile_gt {p : Char → Bool} {line : Line} {col : Int}
    (h : col < (line.length : Int)) (hp : p (charAt line col) = true) :
    col + 1 ≤ skipWhile p line col := by
  rw [skipWhile, dif_pos ⟨h, hp⟩]
  exact skipWhile_ge p line (col + 1)



theorem skip_word_end {line : Line} {start : Int} (h0 : 0 ≤ start)
    (hlt : start < (line.length : Int))
    (hw : isWhitespace (charAt line start) = false) :
    1 ≤ skipWhile (fun ch => !isWhitespace ch) line start ∧
    start ≤ skipWhile (fun ch => !isWhitespace ch) line start - 1 ∧
    skipWhile (fun ch => !isWhitespace ch) line start - 1 < (line.length : Int) ∧
    isWhitespace (charAt line (skipWhile (fun ch => !isWhitespace ch) line start - 1)) =
      false ∧
    (skipWhile (fun ch => !isWhitespace ch) line start = (line.length : Int) ∨
      isWhitespace (charAt line (skipWhile (fun ch => !isWhitespace ch) line start)) =
        true) := by
  set c := skipWhile (fun ch => !isWhitespace ch) line start with hc
  have hge : start + 1 ≤ c := skipWhile_gt hlt (by simp [hw])
  have hle : c ≤ (line.length : Int) := skipWhile_le_len _ _ _ (by omega)
  have hin : isWhitespace (charAt line (c - 1)) = false := by
    have := skipWhile_all (fun ch => !isWhitespace ch) line start (c - 1)
      (by omega) (by omega)
    simpa using this
  refine ⟨by omega, by omega, by omega, hin, ?_⟩
  rcases lt_or_ge c (line.length : Int) with hlt2 | hge2
  · right
    have := skipWhile_stop (fun ch => !isWhitespace ch) line start (by omega)
    simpa using this
  · left
    omega

/-- C8 (amended): `EndOfWord` never leaves the cursor's row, so the original
claim's exception must read "unless the rest of the CURRENT LINE from the
cursor onward is whitespace" rather than "the whole remaining buffer": when
the current line still contains a word character at or after the cursor, the
result column is the index of the last character of a word -- a
non-whitespace character whose successor is the line end or whitespace --
and never past it; but a word on a LATER line does not stop `EndOfWord` from
landing on whitespace (see the counterexample). -/
theorem endOfWord_spec {content : List Line} {cursor : Position}
    (h2 : 0 ≤ cursor.row) (h3 : cursor.row < (content.length : Int))
    (h4 : 0 ≤ cursor.col)
    (hex : ∃ j : Int, cursor.col ≤ j ∧ j < ((lineAt content cursor.row).length : Int) ∧
      isWhitespace (charAt (lineAt content cursor.row) j) = false) :
    (endOfWord content cursor).row = cursor.row ∧
    0 ≤ (endOfWord content cursor).col ∧
    (endOfWord content cursor).col < ((lineAt content cursor.row).length : Int) ∧
    isWhitespace (charAt (lineAt content cursor.row)
      ((endOfWord content cursor).col)) = false ∧
    ((endOfWord content cursor).col + 1 = ((lineAt content cursor.row).length : Int) ∨
      isWhitespace (charAt (lineAt content cursor.row)
        ((endOfWord content cursor).col + 1)) = true) := by
  obtain ⟨j, hj1, hj2, hj3⟩ := hex
  unfold endOfWord
  rw [if_neg (by omega)]
  dsimp only
  by_cases hc : cursor.col < ((lineAt content cursor.row).length : Int) ∧
      ¬isWhitespace (charAt (lineAt content cursor.row) cursor.col)
  · rw [if_pos hc]
    obtain ⟨w1, w2, w3, w4, w5⟩ := skip_word_end h4 hc.1 (by simpa using hc.2)
    rw [if_pos (by omega :
      skipWhile (fun ch => !isWhitespace ch) (lineAt content cursor.row) cursor.col > 0)]
    dsimp only
    refine ⟨rfl, by omega, by omega, w4, ?_⟩
    rw [show skipWhile (fun ch => !isWhitespace ch) (lineAt content cursor.row)
        cursor.col - 1 + 1 =
      skipWhile (fun ch => !isWhitespace ch) (lineAt content cursor.row) cursor.col
      by omega]
    exact w5
  · rw [if_neg hc]
    have hcw : isWhitespace (charAt (lineAt content cursor.row) cursor.col) = true := by
      rcases Decidable.not_and_iff_or_not.mp hc with hx | hx
      · omega
      · simpa using hx
    set c1 := skipWhile (fun ch => isWhitespace ch) (lineAt content cursor.row)
      cursor.col with hc1
    have hc1le : c1 ≤ j := skipWhile_le hj1 hj2 (by simpa using hj3)
    have hc1ge : cursor.col ≤ c1 := skipWhile_ge _ _ _
    have hc1stop : isWhitespace (charAt (lineAt content cursor.row) c1) = false := by
      have := skipWhile_stop (fun ch => isWhitespace ch) (lineAt content cursor.row)
        cursor.col (by omega)
      simpa using this
    obtain ⟨w1, w2, w3, w4, w5⟩ := skip_word_end (by omega) (by omega) hc1stop
    rw [if_pos (by omega :
      skipWhile (fun ch => !isWhitespace ch) (lineAt content cursor.row) c1 > 0)]
    dsimp only
    refine ⟨rfl, by omega, by omega, w4, ?_⟩
    rw [show skipWhile (fun ch => !isWhitespace ch) (lineAt content cursor.row) c1 - 1 + 1 =
      skipWhile (fun ch => !isWhitespace ch) (lineAt content cursor.row) c1 by omega]
    exact w5



/-- C8 counterexample: on the buffer `[" ", "b"]` with the cursor at
`(0,0)`, `EndOfWord` returns `(0,0)` -- a whitespace character -- although
the remaining buffer from the cursor onward is not all whitespace (the next
line holds the word `b`): the function never advances past the current
line, contradicting the claim as stated. -/
theorem endOfWord_whitespace_counterexample :
    endOfWord [[' '], ['b']] ⟨0, 0⟩ = ⟨0, 0⟩ ∧
    isWhitespace (charAt (lineAt [[' '], ['b']] 0) 0) = true ∧
    remainingAllWhitespace [[' '], ['b']] ⟨0, 0⟩ = false := by
  refine ⟨?_, by decide, by decide⟩
  simp only [endOfWord]
  norm_num [lineAt, charAt, isWhitespace]
  rw [skipWhile]
  norm_num [charAt, isWhitespace]
  rw [skipWhile]
  norm_num [charAt, isWhitespace]
  rw [skipWhile]
  norm_num [charAt, isWhitespace]

/-- Witness for C8 (amended) at the buffer `["ab"]`, cursor `(0,0)`. -/
theorem endOfWord_spec_witness :
    (endOfWord [['a', 'b']] ⟨0, 0⟩).row = (0 : Int) ∧
    0 ≤ (endOfWord [['a', 'b']] ⟨0, 0⟩).col ∧
    (endOfWord [['a', 'b']] ⟨0, 0⟩).col < ((lineAt [['a', 'b']] 0).length : Int) ∧
    isWhitespace (charAt (lineAt [['a', 'b']] 0)
      ((endOfWord [['a', 'b']] ⟨0, 0⟩).col)) = false ∧
    ((endOfWord [['a', 'b']] ⟨0, 0⟩).col + 1 = ((lineAt [['a', 'b']] 0).length : Int) ∨
      isWhitespace (charAt (lineAt [['a', 'b']] 0)
        ((endOfWord [['a', 'b']] ⟨0, 0⟩).col + 1)) = true) :=
  endOfWord_spec (by decide) (by decide) (by decide) ⟨0, by decide, by decide, by decide⟩


end Hani
